import Mathlib

/-!
# audioprism: batch spectrogram pipeline

A shallow embedding of `src/main.cpp` (the `Settings` record, `spectrogram_audiofile`
and `main`) and of `src/MagickImageSink.cpp` (`append`, `write`).

* `std::vector<T>` is a `List T`; its `size()` is the list length.
* `size_t` arithmetic is arithmetic on `Nat` reduced modulo `2 ^ 64`.
* A pointer into a vector is an element offset into the list; `memmove` and `memcpy`
  check every access against the vector bounds and answer `none` for an access outside
  of them (undefined behaviour in C++).
* Samples are `double` values that the batch loop only moves around, so the sample type
  is a parameter `α`; pixels (`uint32_t`) are the parameter `π`.
* The transform `RealDft::compute` and the renderer `Spectrogram::render` are not part of
  the embedded files; they enter as function parameters, and every call is logged.
-/

namespace AudioPrism

/-! ## Machine arithmetic -/

/-- Number of values of the 64-bit `size_t`. -/
def SIZE_MOD : Nat := 2 ^ 64

/-- Number of values of the 32-bit `unsigned int` (type of `Settings.dftSize`). -/
def UINT_MOD : Nat := 2 ^ 32

/-- The constant `sizeof(double)`. -/
def sizeofDouble : Nat := 8

/-- Subtraction of two `size_t` values: wraps around modulo `2 ^ 64`. -/
def sizeSub (a b : Nat) : Nat := (a % SIZE_MOD + SIZE_MOD - b % SIZE_MOD) % SIZE_MOD

/-- Multiplication of two `size_t` values: wraps around modulo `2 ^ 64`. -/
def sizeMul (a b : Nat) : Nat := (a * b) % SIZE_MOD

/-! ## `memmove` and `memcpy` on vectors of `double` -/

/-- Effect of `memmove(buf.data() + dst, buf.data() + src, nbytes)`, both pointers into the
same vector `buf` of `double`. The regions may overlap: the source region is read as a
whole before the destination is written. The vector holds whole elements, so the byte
count has to be a multiple of `sizeof(double)`. `none` when a region leaves the vector. -/
def memmove {α : Type} (buf : List α) (dst src nbytes : Nat) : Option (List α) :=
  let n := nbytes / sizeofDouble
  if nbytes % sizeofDouble = 0 ∧ src + n ≤ buf.length ∧ dst + n ≤ buf.length then
    some (buf.take dst ++ (buf.drop src).take n ++ buf.drop (dst + n))
  else
    none

/-- Effect of `memcpy(dstBuf.data() + dst, srcBuf.data(), nbytes)` on `dstBuf`, two distinct
vectors of `double`. The byte count has to be a multiple of `sizeof(double)`. `none` when
a region leaves its vector. -/
def memcpy {α : Type} (dstBuf : List α) (dst : Nat) (srcBuf : List α) (nbytes : Nat) :
    Option (List α) :=
  let n := nbytes / sizeofDouble
  if nbytes % sizeofDouble = 0 ∧ n ≤ srcBuf.length ∧ dst + n ≤ dstBuf.length then
    some (dstBuf.take dst ++ srcBuf.take n ++ dstBuf.drop (dst + n))
  else
    none

/-- The shift-and-append step of the batch loop (`main.cpp`, lines 78-81):
```
memmove(samples.data(), samples.data()+newSamples.size(),
        sizeof(double)*(samples.size()-newSamples.size()));
memcpy(samples.data()+(samples.size()-newSamples.size()), newSamples.data(),
       sizeof(double)*newSamples.size());
```
The result is the new content of `samples`. -/
def shiftAppend {α : Type} (samples newSamples : List α) : Option (List α) :=
  match memmove samples 0 newSamples.length
      (sizeMul sizeofDouble (sizeSub samples.length newSamples.length)) with
  | none => none
  | some moved =>
    memcpy moved (sizeSub samples.length newSamples.length) newSamples
      (sizeMul sizeofDouble newSamples.length)

/-- The step applied to a sequence of chunks, one after the other, starting from the
buffer content `samples`. -/
def pushChunks {α : Type} (samples : List α) : List (List α) → Option (List α)
  | [] => some samples
  | chunk :: rest =>
    match shiftAppend samples chunk with
    | none => none
    | some samples1 => pushChunks samples1 rest

/-- The last `n` elements of a list (the whole list when it is shorter). -/
def lastN {α : Type} (n : Nat) (l : List α) : List α := l.drop (l.length - n)

/-! ## The `Settings` record (`main.cpp`, lines 18-36) -/

/-- Enumerators of `Orientation` that `main.cpp` names. -/
inductive Orientation where
  | Horizontal
  | Vertical
  deriving DecidableEq, Repr

/-- Enumerator of `RealDft::WindowFunction` that `main.cpp` names. -/
inductive WindowFunction where
  | Hanning
  deriving DecidableEq, Repr

/-- Enumerator of `Spectrogram::ColorScheme` that `main.cpp` names. -/
inductive ColorScheme where
  | Heat
  deriving DecidableEq, Repr

/-- The anonymous struct behind the global `Settings`, with its default member
initialisers. `unsigned int` members are natural numbers; the two `double` members hold
the decimal literals `0.0` and `60.0`, kept as exact rationals. -/
structure SettingsT where
  width : Nat := 640
  height : Nat := 480
  orientation : Orientation := Orientation.Horizontal
  audioSampleRate : Nat := 24000
  audioReadSize : Nat := 1024
  dftSize : Nat := 2048
  dftWf : WindowFunction := WindowFunction.Hanning
  magnitudeMin : ℚ := 0
  magnitudeMax : ℚ := 60
  magnitudeLog : Bool := true
  colors : ColorScheme := ColorScheme.Heat
  interfaceHideInfo : Bool := false

/-- The global `Settings` object: every member at its default. -/
def Settings : SettingsT := {}

/-! ## `MagickImageSink` (`MagickImageSink.cpp`) -/

/-- State of a `MagickImageSink`: the destination path, the row width and the pixels
accumulated so far. -/
structure MagickImageSink (π : Type) where
  path : String
  width : Nat
  imagePixels : List π

/-- Constructor `MagickImageSink(path, width)`: no pixel yet. -/
def MagickImageSink.new {π : Type} (path : String) (width : Nat) : MagickImageSink π :=
  { path := path, width := width, imagePixels := [] }

/-- `MagickImageSink::append`:
`imagePixels.insert(imagePixels.end(), pixels.begin(), pixels.end())`. -/
def MagickImageSink.append {π : Type} (sink : MagickImageSink π) (pixels : List π) :
    MagickImageSink π :=
  { sink with imagePixels := sink.imagePixels ++ pixels }

/-- `append` called once per row of a sequence of rows, in order. -/
def MagickImageSink.appendAll {π : Type} (sink : MagickImageSink π) :
    List (List π) → MagickImageSink π
  | [] => sink
  | row :: rest => (sink.append row).appendAll rest

/-- What `MagickImageSink::write` hands to Magick++: the image built by the constructor
`Magick::Image(width, imagePixels.size()/width, "BGRA", CharPixel, imagePixels.data())`,
which reads `columns * rows` pixels from the data pointer, followed by the arguments of
`quality(100)`, `opacity(0)`, `rotate(-90)` and `write(path)`. -/
structure WrittenImage (π : Type) where
  columns : Nat
  rows : Nat
  pixels : List π
  quality : Nat
  opacity : Nat
  rotate : Int
  path : String

/-- `MagickImageSink::write`. The division `imagePixels.size()/width` is undefined for
`width == 0`: `none`. -/
def MagickImageSink.write {π : Type} (sink : MagickImageSink π) : Option (WrittenImage π) :=
  if sink.width = 0 then none
  else
    let columns := sink.width
    let rows := sink.imagePixels.length / sink.width
    some { columns := columns, rows := rows,
           pixels := sink.imagePixels.take (columns * rows),
           quality := 100, opacity := 0, rotate := -90, path := sink.path }

/-! ## `spectrogram_audiofile` (`main.cpp`, lines 61-91) -/

/-- Modelled from the spec: `WaveAudioSource::read(newSamples)`, whose body is not part of
the embedded files. A finite source is the list of chunks its successive reads deliver;
`read` resizes its argument to the samples actually read, and an exhausted source delivers
zero samples. The result is the new content of `newSamples` and the remaining source. The
bound of a read (at most as many samples as the vector passed in holds) is not built in: it
is a hypothesis on the chunk lengths where a theorem needs it. -/
def WaveAudioSource.read {α : Type} : List (List α) → List α × List (List α)
  | [] => ([], [])
  | chunk :: rest => (chunk, rest)

/-- Calls the batch function makes on its collaborators, in program order. -/
inductive Event (α κ π : Type) where
  | read (count : Nat)
  | compute (frame : List α)
  | render (spectrum : List κ)
  | append (pixels : List π)
  | write (image : WrittenImage π)

/-- The local variables of `spectrogram_audiofile` together with the log of calls. -/
structure BatchState (α κ π : Type) where
  audio : List (List α)
  newSamples : List α
  samples : List α
  dftSamples : List κ
  pixels : List π
  image : MagickImageSink π
  trace : List (Event α κ π)

/-- How a run ends: normally with a result, in undefined behaviour, or cut short because the
iteration budget of the model was used up. -/
inductive Outcome (σ : Type) where
  | done (result : σ)
  | undefinedBehaviour
  | outOfFuel

/-- The `while (true)` loop of `spectrogram_audiofile`; `fuel` bounds the number of
iterations. `compute old frame` is the content `dft.compute(dftSamples, samples)` leaves in
`dftSamples`, `render old spectrum` the content `spectrogram.render(pixels, dftSamples)`
leaves in `pixels`. -/
def batchLoop {α κ π : Type} (compute : List κ → List α → List κ)
    (render : List π → List κ → List π) :
    Nat → BatchState α κ π → Outcome (BatchState α κ π)
  | 0, _ => Outcome.outOfFuel
  | fuel + 1, st =>
    let r := WaveAudioSource.read st.audio
    let newSamples := r.1
    let trace1 := st.trace ++ [Event.read newSamples.length]
    if newSamples.length = 0 then
      Outcome.done { st with audio := r.2, newSamples := newSamples, trace := trace1 }
    else
      match shiftAppend st.samples newSamples with
      | none => Outcome.undefinedBehaviour
      | some samples =>
        let dftSamples := compute st.dftSamples samples
        let pixels := render st.pixels dftSamples
        batchLoop compute render fuel
          { audio := r.2, newSamples := newSamples, samples := samples,
            dftSamples := dftSamples, pixels := pixels,
            image := st.image.append pixels,
            trace := trace1 ++ [Event.compute samples, Event.render dftSamples,
                                Event.append pixels] }

/-- The local variables on entry to the loop: the vectors are value-initialised (zeros) with
the sizes taken from the settings, the sink is empty (the constructor of
`MagickImageSink.cpp` takes the path and the width). `audio` is the content of the source
opened from `audioPath`. -/
def initialState {α κ π : Type} [Zero α] [Zero κ] [Zero π] (S : SettingsT)
    (audio : List (List α)) (imagePath : String) : BatchState α κ π :=
  { audio := audio,
    newSamples := List.replicate S.audioReadSize 0,
    samples := List.replicate S.dftSize 0,
    dftSamples := List.replicate S.dftSize 0,
    pixels := List.replicate S.width 0,
    image := MagickImageSink.new imagePath S.width,
    trace := [] }

/-- `spectrogram_audiofile(audioPath, imagePath)`: the loop, then `image.write()`. The
result is the log of all calls made. -/
def spectrogram_audiofile {α κ π : Type} [Zero α] [Zero κ] [Zero π] (S : SettingsT)
    (compute : List κ → List α → List κ) (render : List π → List κ → List π)
    (fuel : Nat) (audio : List (List α)) (imagePath : String) :
    Outcome (List (Event α κ π)) :=
  match batchLoop compute render fuel (initialState S audio imagePath) with
  | Outcome.outOfFuel => Outcome.outOfFuel
  | Outcome.undefinedBehaviour => Outcome.undefinedBehaviour
  | Outcome.done st =>
    match st.image.write with
    | none => Outcome.undefinedBehaviour
    | some img => Outcome.done (st.trace ++ [Event.write img])

/-- The state in which the loop is left when it runs on the source `audio` from the state
`st` and every chunk fits the buffer, by recursion on the source: a chunk of zero samples
or the end of the source ends the run, any other chunk is shifted in, transformed,
rendered and appended. `batchLoop_eq_loopRun` relates it to `batchLoop`. -/
def loopRun {α κ π : Type} (compute : List κ → List α → List κ)
    (render : List π → List κ → List π) :
    List (List α) → BatchState α κ π → BatchState α κ π
  | [], st => { st with audio := [], newSamples := [], trace := st.trace ++ [Event.read 0] }
  | chunk :: rest, st =>
    if chunk.length = 0 then
      { st with audio := rest, newSamples := chunk,
                trace := st.trace ++ [Event.read chunk.length] }
    else
      let samples := st.samples.drop chunk.length ++ chunk
      let dftSamples := compute st.dftSamples samples
      let pixels := render st.pixels dftSamples
      loopRun compute render rest
        { audio := rest, newSamples := chunk, samples := samples,
          dftSamples := dftSamples, pixels := pixels,
          image := st.image.append pixels,
          trace := st.trace ++ [Event.read chunk.length] ++
            [Event.compute samples, Event.render dftSamples, Event.append pixels] }

/-! ## Reading a log -/

/-- Is the event a call of `audio.read`? -/
def Event.isRead {α κ π : Type} : Event α κ π → Bool
  | Event.read _ => true
  | _ => false

/-- Is the event a call of `audio.read` that delivered zero samples? -/
def Event.isZeroRead {α κ π : Type} : Event α κ π → Bool
  | Event.read 0 => true
  | _ => false

/-- Is the event a call of `dft.compute`? -/
def Event.isCompute {α κ π : Type} : Event α κ π → Bool
  | Event.compute _ => true
  | _ => false

/-- Is the event a call of `spectrogram.render`? -/
def Event.isRender {α κ π : Type} : Event α κ π → Bool
  | Event.render _ => true
  | _ => false

/-- Is the event a call of `image.append`? -/
def Event.isAppend {α κ π : Type} : Event α κ π → Bool
  | Event.append _ => true
  | _ => false

/-- Is the event the call of `image.write`? -/
def Event.isWrite {α κ π : Type} : Event α κ π → Bool
  | Event.write _ => true
  | _ => false

/-- Number of calls of `audio.read` in a log. -/
def readCount {α κ π : Type} (tr : List (Event α κ π)) : Nat := tr.countP Event.isRead

/-- Number of rows emitted, that is of calls of `image.append`, in a log. -/
def rowsEmitted {α κ π : Type} (tr : List (Event α κ π)) : Nat := tr.countP Event.isAppend

/-- Number of calls of `audio.read` in a log that delivered a chunk, that is at least one
sample. -/
def dataReadCount {α κ π : Type} (tr : List (Event α κ π)) : Nat :=
  tr.countP (fun e => e.isRead && !e.isZeroRead)

/-- Number of calls of `audio.read` in a log that delivered zero samples. -/
def zeroReadCount {α κ π : Type} (tr : List (Event α κ π)) : Nat := tr.countP Event.isZeroRead

/-- Number of calls of `image.write` in a log. -/
def writeCount {α κ π : Type} (tr : List (Event α κ π)) : Nat := tr.countP Event.isWrite

/-- The frames passed to `dft.compute`, in order. -/
def computeFrames {α κ π : Type} : List (Event α κ π) → List (List α)
  | [] => []
  | Event.compute frame :: rest => frame :: computeFrames rest
  | _ :: rest => computeFrames rest

/-- The events of a log that come after its first zero-sample read. -/
def afterFirstZeroRead {α κ π : Type} (tr : List (Event α κ π)) : List (Event α κ π) :=
  (tr.dropWhile (fun e => !e.isZeroRead)).tail

/-- A source for the scenarios: `count` chunks of `hop` samples each, the samples being the
distinct integers `0, 1, 2, ...` in arrival order. -/
def scenarioChunks (count hop : Nat) : List (List Nat) :=
  (List.range count).map (fun i => List.range' (hop * i) hop)

/-- A transform for the scenarios: the spectrum is the frame itself. -/
def frameAsSpectrum : List Nat → List Nat → List Nat := fun _ frame => frame

/-- A renderer for the scenarios: the row keeps its length and shows the leading bins. -/
def spectrumAsRow : List Nat → List Nat → List Nat :=
  fun old spectrum => (spectrum ++ old).take old.length

/-! ## `main` (`main.cpp`, lines 93-101) -/

/-- The function `main` calls, with its arguments. -/
inductive Mode where
  | spectrogram_audiofile (audioPath imagePath : String)
  | spectrogram_realtime
  deriving DecidableEq, Repr

/-- `main(argc, argv)`: `argv` is the argument vector, `argc` its length. The result is the
function called and the value returned once that call has completed. -/
def main (argv : List String) : Mode × Int :=
  let argc : Int := argv.length
  if argc = 3 then
    (Mode.spectrogram_audiofile (argv.getD 1 "") (argv.getD 2 ""), 0)
  else
    (Mode.spectrogram_realtime, 0)

/-! ## Buffer lemmas -/

/-- A small buffer and a chunk that fits. -/
theorem shiftAppend_fits : shiftAppend [1, 2, 3, 4] [5, 6] = some [3, 4, 5, 6] := by decide

/-- A chunk longer than the buffer: the byte count wraps and the copy leaves the vector. -/
theorem shiftAppend_too_long : shiftAppend [1, 2, 3, 4] [5, 6, 7, 8, 9] = none := by decide

/-- Three chunks through a buffer of four samples. -/
theorem pushChunks_three :
    pushChunks [0, 0, 0, 0] [[1, 2], [3, 4], [5, 6]] = some [3, 4, 5, 6] := by decide

theorem shiftAppend_eq {α : Type} (samples newSamples : List α)
    (hle : newSamples.length ≤ samples.length) (hN : samples.length < UINT_MOD) :
    shiftAppend samples newSamples = some (samples.drop newSamples.length ++ newSamples) := by
  have hsub : sizeSub samples.length newSamples.length = samples.length - newSamples.length := by
    unfold sizeSub SIZE_MOD; unfold UINT_MOD at hN; omega
  have hmul1 : sizeMul sizeofDouble (samples.length - newSamples.length)
      = 8 * (samples.length - newSamples.length) := by
    unfold sizeMul sizeofDouble SIZE_MOD; unfold UINT_MOD at hN; omega
  have hmul2 : sizeMul sizeofDouble newSamples.length = 8 * newSamples.length := by
    unfold sizeMul sizeofDouble SIZE_MOD; unfold UINT_MOD at hN; omega
  unfold shiftAppend
  rw [hsub, hmul1, hmul2]
  have h1 : memmove samples 0 newSamples.length (8 * (samples.length - newSamples.length))
      = some (samples.drop newSamples.length ++ samples.drop (samples.length - newSamples.length)) := by
    unfold memmove sizeofDouble
    have : 8 * (samples.length - newSamples.length) / 8 = samples.length - newSamples.length := by omega
    simp only [this]
    rw [if_pos (by omega)]
    simp
  rw [h1]
  unfold memcpy sizeofDouble
  have : 8 * newSamples.length / 8 = newSamples.length := by omega
  simp only [this]
  rw [if_pos (by simp; omega)]
  simp
  omega

theorem sizeSub_eq (a b : Nat) (hle : b ≤ a) (ha : a < UINT_MOD) : sizeSub a b = a - b := by
  unfold sizeSub SIZE_MOD; unfold UINT_MOD at ha; omega

theorem shiftAppend_length {α : Type} (samples newSamples : List α)
    (hle : newSamples.length ≤ samples.length) :
    (samples.drop newSamples.length ++ newSamples).length = samples.length := by
  simp; omega

theorem lastN_append_chunk {α : Type} (init c rest : List α) (hle : c.length ≤ init.length) :
    lastN init.length (init.drop c.length ++ c ++ rest) = lastN init.length (init ++ (c ++ rest)) := by
  unfold lastN
  have h1 : (init.drop c.length ++ c ++ rest).length - init.length = rest.length := by
    simp; omega
  have h2 : (init ++ (c ++ rest)).length - init.length = c.length + rest.length := by
    simp
  rw [h1, h2, ← List.drop_drop, List.drop_append_of_le_length hle, List.append_assoc]

theorem pushChunks_eq {α : Type} (chunks : List (List α)) :
    ∀ (init : List α), init.length < UINT_MOD → (∀ c ∈ chunks, c.length ≤ init.length) →
      pushChunks init chunks = some (lastN init.length (init ++ chunks.flatten)) := by
  induction chunks with
  | nil => intro init _ _; simp [pushChunks, lastN]
  | cons c rest ih =>
    intro init hN hch
    have hc : c.length ≤ init.length := hch c (List.mem_cons_self _ _)
    have hlen := shiftAppend_length init c hc
    simp only [pushChunks, shiftAppend_eq init c hc hN]
    have := ih (init.drop c.length ++ c) (by rw [hlen]; exact hN)
      (fun d hd => by rw [hlen]; exact hch d (List.mem_cons_of_mem _ hd))
    rw [this, hlen, List.flatten_cons, lastN_append_chunk init c rest.flatten hc]

theorem length_flatten_const {α : Type} (chunks : List (List α)) (H : Nat)
    (hch : ∀ c ∈ chunks, c.length = H) : chunks.flatten.length = chunks.length * H := by
  induction chunks with
  | nil => simp
  | cons c rest ih =>
    have h1 := hch c (List.mem_cons_self _ _)
    have h2 := ih (fun d hd => hch d (List.mem_cons_of_mem _ hd))
    simp [List.flatten_cons, h1, h2]; ring

/-! ## Claims on the sliding-window buffer -/

/-- C1. Ring-buffer correctness of the shift-and-append step: for a hop size `H ≥ 1`, a
factor `k ≥ 1`, a buffer of length `N = k * H` (an `unsigned int` value) with any content,
after the step has been applied to `k` chunks of `H` samples the buffer is the
concatenation of these chunks in arrival order, and after one more chunk it is the
concatenation of chunks `2 .. k+1`. -/
theorem ring_buffer_correct {α : Type} (H k : Nat) (_hH : 1 ≤ H) (hk : 1 ≤ k)
    (hN : k * H < UINT_MOD) (init : List α) (hinit : init.length = k * H)
    (chunks : List (List α)) (hlen : chunks.length = k) (hch : ∀ c ∈ chunks, c.length = H)
    (extra : List α) (hextra : extra.length = H) :
    pushChunks init chunks = some chunks.flatten ∧
    pushChunks init (chunks ++ [extra]) = some (chunks ++ [extra]).tail.flatten := by
  have hHN : H ≤ init.length := by
    rw [hinit]; exact Nat.le_mul_of_pos_left H (by omega)
  have hfl : chunks.flatten.length = init.length := by
    rw [length_flatten_const chunks H hch, hlen, hinit]
  constructor
  · rw [pushChunks_eq chunks init (by rw [hinit]; exact hN)
      (fun c hc => by rw [hch c hc]; exact hHN)]
    unfold lastN
    have : (init ++ chunks.flatten).length - init.length = init.length := by
      simp [hfl]
    rw [this, List.drop_left]
  · rw [pushChunks_eq (chunks ++ [extra]) init (by rw [hinit]; exact hN)
      (fun c hc => by
        rcases List.mem_append.mp hc with h | h
        · rw [hch c h]; exact hHN
        · rw [List.mem_singleton.mp h, hextra]; exact hHN)]
    unfold lastN
    cases chunks with
    | nil => simp at hlen; omega
    | cons c rest =>
      have hc : c.length = H := hch c (List.mem_cons_self _ _)
      have : (init ++ (c :: rest ++ [extra]).flatten).length - init.length
          = init.length + c.length := by
        simp at hfl ⊢
        omega
      rw [this]
      simp only [List.cons_append, List.tail_cons, List.flatten_cons]
      rw [← List.drop_drop, List.drop_left, List.drop_left]

/-- Witness of C1: `H = 2`, `k = 2`, a buffer of four zeros, chunks `[1,2]`, `[3,4]` and then
`[5,6]`. -/
theorem ring_buffer_correct_witness :
    pushChunks [0, 0, 0, 0] [[1, 2], [3, 4]] = some [[1, 2], [3, 4]].flatten ∧
    pushChunks [0, 0, 0, 0] ([[1, 2], [3, 4]] ++ [[5, 6]])
      = some ([[1, 2], [3, 4]] ++ [[5, 6]]).tail.flatten :=
  ring_buffer_correct 2 2 (by decide) (by decide) (by decide) [0, 0, 0, 0] (by decide)
    [[1, 2], [3, 4]] (by decide) (by decide) [5, 6] (by decide)

/-! ## Loop lemmas -/

variable {α κ π : Type}

theorem batchLoop_eq_loopRun (compute : List κ → List α → List κ)
    (render : List π → List κ → List π) (audio : List (List α)) :
    ∀ (fuel : Nat) (st : BatchState α κ π), st.audio = audio → audio.length < fuel →
      st.samples.length < UINT_MOD → (∀ c ∈ audio, c.length ≤ st.samples.length) →
      batchLoop compute render fuel st = Outcome.done (loopRun compute render audio st) := by
  induction audio with
  | nil =>
    intro fuel st haudio hfuel _ _
    obtain ⟨f, rfl⟩ : ∃ f, fuel = f + 1 := ⟨fuel - 1, by simp at hfuel; omega⟩
    simp [batchLoop, loopRun, haudio, WaveAudioSource.read]
  | cons c rest ih =>
    intro fuel st haudio hfuel hN hch
    obtain ⟨f, rfl⟩ : ∃ f, fuel = f + 1 := ⟨fuel - 1, by simp at hfuel; omega⟩
    have hc : c.length ≤ st.samples.length := hch c (List.mem_cons_self _ _)
    by_cases h0 : c.length = 0
    · simp [batchLoop, loopRun, haudio, WaveAudioSource.read, h0]
    · simp only [batchLoop, loopRun, haudio, WaveAudioSource.read, h0, if_false,
        shiftAppend_eq st.samples c hc hN]
      have hlen := shiftAppend_length st.samples c hc
      apply ih
      · rfl
      · simp at hfuel; omega
      · simp only [hlen]; exact hN
      · intro d hd; simp only [hlen]; exact hch d (List.mem_cons_of_mem _ hd)

theorem batchLoop_outOfFuel (compute : List κ → List α → List κ)
    (render : List π → List κ → List π) (audio : List (List α)) :
    ∀ (fuel : Nat) (st : BatchState α κ π), st.audio = audio → fuel ≤ audio.length →
      st.samples.length < UINT_MOD →
      (∀ c ∈ audio, c.length ≠ 0 ∧ c.length ≤ st.samples.length) →
      batchLoop compute render fuel st = Outcome.outOfFuel := by
  induction audio with
  | nil =>
    intro fuel st _ hfuel _ _
    have : fuel = 0 := by simpa using hfuel
    subst this; rfl
  | cons c rest ih =>
    intro fuel st haudio hfuel hN hch
    cases fuel with
    | zero => rfl
    | succ f =>
      have hc := hch c (List.mem_cons_self _ _)
      simp only [batchLoop, haudio, WaveAudioSource.read, hc.1, if_false,
        shiftAppend_eq st.samples c hc.2 hN]
      have hlen := shiftAppend_length st.samples c hc.2
      apply ih
      · rfl
      · simp at hfuel; omega
      · simp only [hlen]; exact hN
      · intro d hd; simp only [hlen]; exact hch d (List.mem_cons_of_mem _ hd)

theorem computeFrames_append (a b : List (Event α κ π)) :
    computeFrames (a ++ b) = computeFrames a ++ computeFrames b := by
  induction a with
  | nil => rfl
  | cons e rest ih => cases e <;> simp [computeFrames, ih]

theorem isZeroRead_read (n : Nat) (h : n ≠ 0) :
    (Event.read n : Event α κ π).isZeroRead = false := by
  cases n with
  | zero => exact absurd rfl h
  | succ k => rfl

theorem loopRun_frames (compute : List κ → List α → List κ)
    (render : List π → List κ → List π) (N : Nat) (audio : List (List α)) :
    ∀ (st : BatchState α κ π), st.samples.length = N → (∀ c ∈ audio, c.length ≤ N) →
      (∀ f ∈ computeFrames st.trace, f.length = N) →
      ∀ f ∈ computeFrames (loopRun compute render audio st).trace, f.length = N := by
  induction audio with
  | nil =>
    intro st _ _ htr f hf
    simp [loopRun, computeFrames_append, computeFrames] at hf
    exact htr f hf
  | cons c rest ih =>
    intro st hlen hch htr
    have hc : c.length ≤ st.samples.length := by
      rw [hlen]; exact hch c (List.mem_cons_self _ _)
    by_cases h0 : c.length = 0
    · intro f hf
      simp [loopRun, h0, computeFrames_append, computeFrames] at hf
      exact htr f hf
    · simp only [loopRun, h0, if_false]
      apply ih
      · simp only [shiftAppend_length st.samples c hc]; exact hlen
      · intro d hd; exact hch d (List.mem_cons_of_mem _ hd)
      · intro f hf
        simp [computeFrames_append, computeFrames] at hf
        rcases hf with h | h
        · exact htr f h
        · rw [h, shiftAppend_length st.samples c hc]; exact hlen

theorem loopRun_image (compute : List κ → List α → List κ)
    (render : List π → List κ → List π) (audio : List (List α)) :
    ∀ (st : BatchState α κ π), (loopRun compute render audio st).image.width = st.image.width := by
  induction audio with
  | nil => intro st; rfl
  | cons c rest ih =>
    intro st
    by_cases h0 : c.length = 0
    · simp [loopRun, h0]
    · simp only [loopRun, h0, if_false]
      rw [ih]; rfl

theorem loopRun_trace (compute : List κ → List α → List κ)
    (render : List π → List κ → List π) (audio : List (List α)) :
    ∀ (st : BatchState α κ π), (∀ c ∈ audio, c.length ≠ 0) →
      ∃ body, (loopRun compute render audio st).trace = st.trace ++ body ++ [Event.read 0] ∧
        (∀ e ∈ body, e.isZeroRead = false ∧ e.isWrite = false) ∧
        readCount body = audio.length ∧ rowsEmitted body = audio.length ∧
        body.countP Event.isCompute = audio.length ∧
        body.countP Event.isRender = audio.length := by
  induction audio with
  | nil =>
    intro st _
    exact ⟨[], by simp [loopRun], by simp, rfl, rfl, rfl, rfl⟩
  | cons c rest ih =>
    intro st hch
    have h0 : c.length ≠ 0 := hch c (List.mem_cons_self _ _)
    simp only [loopRun, h0, if_false]
    obtain ⟨body, htr, hno, hr, ha, hc, hd⟩ :=
      ih { audio := rest, newSamples := c, samples := st.samples.drop c.length ++ c,
           dftSamples := compute st.dftSamples (st.samples.drop c.length ++ c),
           pixels := render st.pixels (compute st.dftSamples (st.samples.drop c.length ++ c)),
           image := st.image.append
             (render st.pixels (compute st.dftSamples (st.samples.drop c.length ++ c))),
           trace := st.trace ++ [Event.read c.length] ++
             [Event.compute (st.samples.drop c.length ++ c),
              Event.render (compute st.dftSamples (st.samples.drop c.length ++ c)),
              Event.append
                (render st.pixels (compute st.dftSamples (st.samples.drop c.length ++ c)))] }
        (fun d hd => hch d (List.mem_cons_of_mem _ hd))
    refine ⟨[Event.read c.length, Event.compute (st.samples.drop c.length ++ c),
      Event.render (compute st.dftSamples (st.samples.drop c.length ++ c)),
      Event.append (render st.pixels (compute st.dftSamples (st.samples.drop c.length ++ c)))]
      ++ body, ?_, ?_, ?_, ?_, ?_, ?_⟩
    · rw [htr]; simp
    · intro e he
      rcases List.mem_append.mp he with h | h
      · simp only [List.mem_cons, List.mem_singleton, List.not_mem_nil, or_false] at h
        rcases h with h | h | h | h <;> subst h
        · exact ⟨isZeroRead_read _ h0, rfl⟩
        · exact ⟨rfl, rfl⟩
        · exact ⟨rfl, rfl⟩
        · exact ⟨rfl, rfl⟩
      · exact hno e h
    · unfold readCount at hr ⊢
      rw [List.countP_append, hr]
      simp [List.countP_cons, Event.isRead]; omega
    · unfold rowsEmitted at ha ⊢
      rw [List.countP_append, ha]
      simp [List.countP_cons, Event.isAppend]; omega
    · rw [List.countP_append, hc]
      simp [List.countP_cons, Event.isCompute]; omega
    · rw [List.countP_append, hd]
      simp [List.countP_cons, Event.isRender]; omega

theorem lastN_self_append {α : Type} (s c : List α) (hle : c.length ≤ s.length) :
    lastN s.length (s ++ c) = s.drop c.length ++ c := by
  unfold lastN
  have : (s ++ c).length - s.length = c.length := by simp
  rw [this, List.drop_append_of_le_length hle]

theorem loopRun_windows (compute : List κ → List α → List κ)
    (render : List π → List κ → List π) (N : Nat) (audio : List (List α)) :
    ∀ (st : BatchState α κ π), st.samples.length = N →
      (∀ c ∈ audio, c.length ≠ 0 ∧ c.length ≤ N) →
      computeFrames (loopRun compute render audio st).trace
        = computeFrames st.trace ++ (List.range audio.length).map
            (fun j => lastN N (st.samples ++ (audio.take (j + 1)).flatten)) ∧
      (loopRun compute render audio st).samples = lastN N (st.samples ++ audio.flatten) := by
  induction audio with
  | nil =>
    intro st hlen _
    simp [loopRun, computeFrames_append, computeFrames, lastN, hlen]
  | cons c rest ih =>
    intro st hlen hch
    have hc := hch c (List.mem_cons_self _ _)
    have hle : c.length ≤ st.samples.length := by rw [hlen]; exact hc.2
    have hlen1 := shiftAppend_length st.samples c hle
    simp only [loopRun, hc.1, if_false]
    obtain ⟨h1, h2⟩ := ih
      { audio := rest, newSamples := c, samples := st.samples.drop c.length ++ c,
        dftSamples := compute st.dftSamples (st.samples.drop c.length ++ c),
        pixels := render st.pixels (compute st.dftSamples (st.samples.drop c.length ++ c)),
        image := st.image.append
          (render st.pixels (compute st.dftSamples (st.samples.drop c.length ++ c))),
        trace := st.trace ++ [Event.read c.length] ++
          [Event.compute (st.samples.drop c.length ++ c),
           Event.render (compute st.dftSamples (st.samples.drop c.length ++ c)),
           Event.append
             (render st.pixels (compute st.dftSamples (st.samples.drop c.length ++ c)))] }
      (by simp only [hlen1]; exact hlen)
      (fun d hd => hch d (List.mem_cons_of_mem _ hd))
    have key : ∀ X : List α, lastN N (st.samples.drop c.length ++ c ++ X)
        = lastN N (st.samples ++ (c ++ X)) := by
      intro X
      have := lastN_append_chunk st.samples c X hle
      rw [hlen] at this
      exact this
    constructor
    · rw [h1]
      simp only [computeFrames_append, computeFrames, List.append_nil, List.length_cons,
        List.range_succ_eq_map, List.map_cons, List.map_map, List.take_succ_cons,
        List.take_zero, List.flatten_cons, List.flatten_nil, List.append_assoc]
      have h0 : lastN N (st.samples ++ c) = st.samples.drop c.length ++ c := by
        have := lastN_self_append st.samples c hle
        rw [hlen] at this
        exact this
      rw [h0]
      simp only [List.singleton_append, List.cons.injEq, true_and, List.append_cancel_left_eq]
      apply List.map_congr_left
      intro j _
      simp only [Function.comp, List.take_succ_cons, List.flatten_cons]
      rw [← key, List.append_assoc]
    · rw [h2, List.flatten_cons, key]

theorem write_of_width_pos (sink : MagickImageSink π) (hw : 0 < sink.width) :
    ∃ img, sink.write = some img ∧ img.columns = sink.width ∧
      img.rows = sink.imagePixels.length / sink.width ∧
      img.pixels = sink.imagePixels.take (sink.width * (sink.imagePixels.length / sink.width)) := by
  refine ⟨{ columns := sink.width, rows := sink.imagePixels.length / sink.width,
             pixels := sink.imagePixels.take (sink.width * (sink.imagePixels.length / sink.width)),
             quality := 100, opacity := 0, rotate := -90, path := sink.path }, ?_, rfl, rfl, rfl⟩
  unfold MagickImageSink.write
  rw [if_neg (by omega)]

theorem spectrogram_audiofile_eq [Zero α] [Zero κ] [Zero π] (S : SettingsT)
    (compute : List κ → List α → List κ) (render : List π → List κ → List π)
    (audio : List (List α)) (imagePath : String)
    (hN : S.dftSize < UINT_MOD) (hw : 0 < S.width) (hch : ∀ c ∈ audio, c.length ≤ S.dftSize) :
    ∃ img, ∀ fuel, audio.length < fuel →
      spectrogram_audiofile S compute render fuel audio imagePath
        = Outcome.done ((loopRun compute render audio
            (initialState S audio imagePath)).trace ++ [Event.write img]) := by
  have hwidth := loopRun_image compute render audio
    (initialState S audio imagePath : BatchState α κ π)
  obtain ⟨img, himg, _⟩ := write_of_width_pos
    (loopRun compute render audio (initialState S audio imagePath : BatchState α κ π)).image
    (by rw [hwidth]; exact hw)
  refine ⟨img, fun fuel hfuel => ?_⟩
  unfold spectrogram_audiofile
  rw [batchLoop_eq_loopRun compute render audio fuel _ rfl hfuel
    (by simp [initialState]; exact hN) (by simpa [initialState] using hch)]
  simp only [himg]

theorem dropWhile_append_of_all (p : Event α κ π → Bool) (body rest : List (Event α κ π))
    (h : ∀ e ∈ body, p e = true) : (body ++ rest).dropWhile p = rest.dropWhile p := by
  induction body with
  | nil => rfl
  | cons e tl ih =>
    have he : p e = true := h e (List.mem_cons_self _ _)
    simp only [List.cons_append, List.dropWhile_cons, he, if_true]
    exact ih (fun d hd => h d (List.mem_cons_of_mem _ hd))

/-- Shape of the log of a whole run on a source of non-empty chunks that fit the buffer. -/
theorem run_shape [Zero α] [Zero κ] [Zero π] (S : SettingsT)
    (compute : List κ → List α → List κ) (render : List π → List κ → List π)
    (audio : List (List α)) (imagePath : String)
    (hN : S.dftSize < UINT_MOD) (hw : 0 < S.width)
    (hch : ∀ c ∈ audio, 1 ≤ c.length ∧ c.length ≤ S.dftSize) :
    ∃ body img,
      (∀ fuel, audio.length < fuel →
        spectrogram_audiofile S compute render fuel audio imagePath
          = Outcome.done (body ++ [Event.read 0, Event.write img])) ∧
      (∀ e ∈ body, e.isZeroRead = false ∧ e.isWrite = false) ∧
      readCount body = audio.length ∧ rowsEmitted body = audio.length ∧
      body.countP Event.isCompute = audio.length ∧
      body.countP Event.isRender = audio.length := by
  obtain ⟨img, hrun⟩ := spectrogram_audiofile_eq S compute render audio imagePath hN hw
    (fun c hc => (hch c hc).2)
  obtain ⟨body, htr, hrest⟩ := loopRun_trace compute render audio
    (initialState S audio imagePath : BatchState α κ π)
    (fun c hc => by have := (hch c hc).1; omega)
  refine ⟨body, img, fun fuel hfuel => ?_, hrest⟩
  rw [hrun fuel hfuel, htr]
  simp [initialState]

theorem settings_dftSize : Settings.dftSize = 2048 := rfl

theorem scenarioChunks_length (count hop : Nat) : (scenarioChunks count hop).length = count := by
  simp [scenarioChunks]

theorem scenarioChunks_chunk (count hop : Nat) :
    ∀ c ∈ scenarioChunks count hop, c.length = hop := by
  intro c hc
  simp only [scenarioChunks, List.mem_map] at hc
  obtain ⟨i, _, rfl⟩ := hc
  simp

/-! ## Claims on the batch loop -/

/-- C2. Sliding-window invariant: for a buffer of length `N` (an `unsigned int` value) and
chunks whose lengths are each between `1` and `N`, after every step the buffer equals the
last `N` elements of the initial content followed by all samples received so far. This
holds for the step applied to every initial segment of the chunk sequence, and in a run of the batch
loop that starts with this buffer and reads these chunks: the frame passed to the
transform after the step on chunk `j + 1` and the buffer left at the end are these last `N`
elements. -/
theorem sliding_window_invariant (N : Nat) (hN : N < UINT_MOD) (init : List α)
    (hinit : init.length = N) (chunks : List (List α))
    (hch : ∀ c ∈ chunks, 1 ≤ c.length ∧ c.length ≤ N)
    (compute : List κ → List α → List κ) (render : List π → List κ → List π)
    (st : BatchState α κ π) (haudio : st.audio = chunks) (hsamples : st.samples = init)
    (htrace : st.trace = []) :
    (∀ j, j ≤ chunks.length →
      pushChunks init (chunks.take j) = some (lastN N (init ++ (chunks.take j).flatten))) ∧
    (∀ fuel, chunks.length < fuel →
      ∃ st1, batchLoop compute render fuel st = Outcome.done st1 ∧
        computeFrames st1.trace = (List.range chunks.length).map
          (fun j => lastN N (init ++ (chunks.take (j + 1)).flatten)) ∧
        st1.samples = lastN N (init ++ chunks.flatten)) := by
  constructor
  · intro j _
    have := pushChunks_eq (chunks.take j) init (by rw [hinit]; exact hN)
      (fun c hc => by rw [hinit]; exact (hch c (List.mem_of_mem_take hc)).2)
    rw [this, hinit]
  · intro fuel hfuel
    have hlen : st.samples.length = N := by rw [hsamples]; exact hinit
    obtain ⟨h1, h2⟩ := loopRun_windows compute render N chunks st hlen
      (fun c hc => ⟨by have := (hch c hc).1; omega, (hch c hc).2⟩)
    refine ⟨loopRun compute render chunks st, ?_, ?_, ?_⟩
    · exact batchLoop_eq_loopRun compute render chunks fuel st haudio hfuel
        (by rw [hlen]; exact hN) (fun c hc => by rw [hlen]; exact (hch c hc).2)
    · rw [h1, htrace, hsamples]; rfl
    · rw [h2, hsamples]

/-- Witness of C2: a buffer of four samples and chunks of lengths 3, 1 and 4. -/
theorem sliding_window_invariant_witness :
    (∀ j, j ≤ [[1, 2, 3], [4], [5, 6, 7, 8]].length →
      pushChunks [0, 0, 0, 0] ([[1, 2, 3], [4], [5, 6, 7, 8]].take j)
        = some (lastN 4 ([0, 0, 0, 0] ++ ([[1, 2, 3], [4], [5, 6, 7, 8]].take j).flatten))) ∧
    (∀ fuel, [[1, 2, 3], [4], [5, 6, 7, 8]].length < fuel →
      ∃ st1, batchLoop frameAsSpectrum spectrumAsRow fuel
          { audio := [[1, 2, 3], [4], [5, 6, 7, 8]], newSamples := [0, 0, 0, 0],
            samples := [0, 0, 0, 0], dftSamples := [0, 0, 0, 0], pixels := [0, 0],
            image := MagickImageSink.new "out.png" 2, trace := [] } = Outcome.done st1 ∧
        computeFrames st1.trace = (List.range [[1, 2, 3], [4], [5, 6, 7, 8]].length).map
          (fun j => lastN 4 ([0, 0, 0, 0] ++ ([[1, 2, 3], [4], [5, 6, 7, 8]].take (j + 1)).flatten)) ∧
        st1.samples = lastN 4 ([0, 0, 0, 0] ++ [[1, 2, 3], [4], [5, 6, 7, 8]].flatten)) :=
  sliding_window_invariant 4 (by decide) [0, 0, 0, 0] (by decide)
    [[1, 2, 3], [4], [5, 6, 7, 8]] (by decide) frameAsSpectrum spectrumAsRow
    { audio := [[1, 2, 3], [4], [5, 6, 7, 8]], newSamples := [0, 0, 0, 0],
      samples := [0, 0, 0, 0], dftSamples := [0, 0, 0, 0], pixels := [0, 0],
      image := MagickImageSink.new "out.png" 2, trace := [] } rfl rfl rfl

/-- C7. Termination and single serialisation: on a finite source of non-empty chunks (each
fitting the buffer) followed by a zero-sample read, `spectrogram_audiofile` terminates with
a log that does not depend on the iteration budget; the log ends with the first
zero-sample read followed by the single call of `image.write`, so nothing (no read,
transform, render or append) follows the zero-sample read but that call; the rows emitted
are exactly one per chunk, none for the zero-sample read; `image.write` is called once. -/
theorem batch_terminates_writes_once [Zero α] [Zero κ] [Zero π] (S : SettingsT)
    (compute : List κ → List α → List κ) (render : List π → List κ → List π)
    (audio : List (List α)) (imagePath : String)
    (hN : S.dftSize < UINT_MOD) (hw : 0 < S.width)
    (hch : ∀ c ∈ audio, 1 ≤ c.length ∧ c.length ≤ S.dftSize) :
    ∃ tr : List (Event α κ π),
      (∀ fuel, audio.length < fuel →
        spectrogram_audiofile S compute render fuel audio imagePath = Outcome.done tr) ∧
      (∃ body img, tr = body ++ [Event.read 0, Event.write img] ∧
        ∀ e ∈ body, e.isZeroRead = false ∧ e.isWrite = false) ∧
      (∃ img, afterFirstZeroRead tr = [Event.write img]) ∧
      rowsEmitted tr = audio.length ∧
      zeroReadCount tr = 1 ∧
      writeCount tr = 1 := by
  obtain ⟨body, img, hrun, hno, _, hrows, _, _⟩ :=
    run_shape S compute render audio imagePath hN hw hch
  refine ⟨body ++ [Event.read 0, Event.write img], hrun, ⟨body, img, rfl, hno⟩, ⟨img, ?_⟩,
    ?_, ?_, ?_⟩
  · unfold afterFirstZeroRead
    rw [dropWhile_append_of_all _ body _ (fun e he => by simp [(hno e he).1])]
    simp [List.dropWhile_cons, Event.isZeroRead]
  · unfold rowsEmitted at hrows ⊢
    rw [List.countP_append, hrows]
    simp [List.countP_cons, Event.isAppend]
  · unfold zeroReadCount
    rw [List.countP_append, List.countP_eq_zero.mpr (fun e he => by simp [(hno e he).1])]
    simp [List.countP_cons, Event.isZeroRead]
  · unfold writeCount
    rw [List.countP_append, List.countP_eq_zero.mpr (fun e he => by simp [(hno e he).2])]
    simp [List.countP_cons, Event.isWrite]

/-- Witness of C7: the default settings and a source of two chunks, `[1, 2]` and `[3]`. -/
theorem batch_terminates_writes_once_witness :
    ∃ tr : List (Event Nat Nat Nat),
      (∀ fuel, 2 < fuel →
        spectrogram_audiofile Settings frameAsSpectrum spectrumAsRow fuel [[1, 2], [3]] "out.png"
          = Outcome.done tr) ∧
      (∃ img, afterFirstZeroRead tr = [Event.write img]) ∧
      rowsEmitted tr = 2 ∧ zeroReadCount tr = 1 ∧ writeCount tr = 1 := by
  obtain ⟨tr, h1, _, h3, h4, h5, h6⟩ :=
    batch_terminates_writes_once Settings frameAsSpectrum spectrumAsRow [[1, 2], [3]] "out.png"
      (by decide) (by decide) (by decide)
  exact ⟨tr, h1, h3, h4, h5, h6⟩

/-- C8. Transform length contract: when every chunk the source returns has length at most
`N = dftSize` (an `unsigned int` value), the loop runs to its end without an access outside
a vector, every frame passed to `dft.compute` has length exactly `N`, and at every step on a
buffer of length `N` the unsigned subtraction `samples.size() - newSamples.size()` equals
the mathematical difference (no wrap) and the step yields a buffer of length `N`. -/
theorem transform_length_contract [Zero α] [Zero κ] [Zero π] (S : SettingsT)
    (compute : List κ → List α → List κ) (render : List π → List κ → List π)
    (audio : List (List α)) (imagePath : String)
    (hN : S.dftSize < UINT_MOD) (hch : ∀ c ∈ audio, c.length ≤ S.dftSize) :
    (∀ fuel, audio.length < fuel →
      ∃ st : BatchState α κ π,
        batchLoop compute render fuel (initialState S audio imagePath) = Outcome.done st ∧
        ∀ f ∈ computeFrames st.trace, f.length = S.dftSize) ∧
    (∀ c ∈ audio, ∀ samples : List α, samples.length = S.dftSize →
      (sizeSub samples.length c.length : Int) = (samples.length : Int) - (c.length : Int) ∧
      ∃ r, shiftAppend samples c = some r ∧ r.length = S.dftSize) := by
  constructor
  · intro fuel hfuel
    refine ⟨loopRun compute render audio (initialState S audio imagePath), ?_, ?_⟩
    · exact batchLoop_eq_loopRun compute render audio fuel _ rfl hfuel
        (by simp [initialState]; exact hN) (by simpa [initialState] using hch)
    · exact loopRun_frames compute render S.dftSize audio _ (by simp [initialState]) hch
        (by simp [initialState, computeFrames])
  · intro c hc samples hlen
    have hle : c.length ≤ samples.length := by rw [hlen]; exact hch c hc
    have hlt : samples.length < UINT_MOD := by rw [hlen]; exact hN
    refine ⟨?_, samples.drop c.length ++ c, shiftAppend_eq samples c hle hlt, ?_⟩
    · rw [sizeSub_eq _ _ hle hlt]; omega
    · rw [shiftAppend_length samples c hle, hlen]

/-- Witness of C8: the default settings and a source of chunks of lengths 2, 0 and 1. -/
theorem transform_length_contract_witness :
    (∀ fuel, 3 < fuel →
      ∃ st : BatchState Nat Nat Nat,
        batchLoop frameAsSpectrum spectrumAsRow fuel
          (initialState Settings [[1, 2], [], [3]] "out.png") = Outcome.done st ∧
        ∀ f ∈ computeFrames st.trace, f.length = 2048) ∧
    (∀ c ∈ [[1, 2], [], [3]], ∀ samples : List Nat, samples.length = 2048 →
      (sizeSub samples.length c.length : Int) = (samples.length : Int) - (c.length : Int) ∧
      ∃ r, shiftAppend samples c = some r ∧ r.length = 2048) :=
  transform_length_contract Settings frameAsSpectrum spectrumAsRow [[1, 2], [], [3]] "out.png"
    (by decide) (by decide)

/-- Counterexample to C3 as stated: with the default settings (hop 1024, N = 2048) and a
source of 4 chunks of 1024 samples, the batch loop emits 4 rows, not 3. -/
theorem filling_rows_counterexample :
    ∃ tr : List (Event Nat Nat Nat),
      spectrogram_audiofile Settings frameAsSpectrum spectrumAsRow 5 (scenarioChunks 4 1024)
        "out.png" = Outcome.done tr ∧
      rowsEmitted tr = 4 ∧ rowsEmitted tr ≠ 3 := by
  obtain ⟨body, img, hrun, _, _, hrows, _, _⟩ :=
    run_shape Settings frameAsSpectrum spectrumAsRow (scenarioChunks 4 1024) "out.png"
      (by decide) (by decide)
      (fun c hc => by rw [scenarioChunks_chunk 4 1024 c hc, settings_dftSize]; decide)
  have h4 : rowsEmitted (body ++ [Event.read 0, Event.write img]) = 4 := by
    unfold rowsEmitted at hrows ⊢
    rw [List.countP_append, hrows, scenarioChunks_length]
    simp [List.countP_cons, Event.isAppend]
  refine ⟨_, hrun 5 (by rw [scenarioChunks_length]; decide), h4, ?_⟩
  rw [h4]; decide

/-- C3, amended. The batch loop has no filling phase: on a source of `m` non-empty chunks
that fit the buffer, every chunk, the first included, triggers one transform, one render
and one appended row, so `m` chunks emit `m` rows. -/
theorem batch_rows_emitted [Zero α] [Zero κ] [Zero π] (S : SettingsT)
    (compute : List κ → List α → List κ) (render : List π → List κ → List π)
    (audio : List (List α)) (imagePath : String)
    (hN : S.dftSize < UINT_MOD) (hw : 0 < S.width)
    (hch : ∀ c ∈ audio, 1 ≤ c.length ∧ c.length ≤ S.dftSize) :
    ∃ tr : List (Event α κ π),
      (∀ fuel, audio.length < fuel →
        spectrogram_audiofile S compute render fuel audio imagePath = Outcome.done tr) ∧
      rowsEmitted tr = audio.length ∧
      tr.countP Event.isCompute = audio.length ∧
      tr.countP Event.isRender = audio.length := by
  obtain ⟨body, img, hrun, _, _, hrows, hc, hr⟩ :=
    run_shape S compute render audio imagePath hN hw hch
  refine ⟨body ++ [Event.read 0, Event.write img], hrun, ?_, ?_, ?_⟩
  · unfold rowsEmitted at hrows ⊢
    rw [List.countP_append, hrows]
    simp [List.countP_cons, Event.isAppend]
  · rw [List.countP_append, hc]
    simp [List.countP_cons, Event.isCompute]
  · rw [List.countP_append, hr]
    simp [List.countP_cons, Event.isRender]

/-- Witness of C3, amended: the default settings and the four chunks of 1024 samples. -/
theorem batch_rows_emitted_witness :
    ∃ tr : List (Event Nat Nat Nat),
      (∀ fuel, (scenarioChunks 4 1024).length < fuel →
        spectrogram_audiofile Settings frameAsSpectrum spectrumAsRow fuel
          (scenarioChunks 4 1024) "out.png" = Outcome.done tr) ∧
      rowsEmitted tr = (scenarioChunks 4 1024).length ∧
      tr.countP Event.isCompute = (scenarioChunks 4 1024).length ∧
      tr.countP Event.isRender = (scenarioChunks 4 1024).length :=
  batch_rows_emitted Settings frameAsSpectrum spectrumAsRow (scenarioChunks 4 1024) "out.png"
    (by decide) (by decide)
    (fun c hc => by rw [scenarioChunks_chunk 4 1024 c hc, settings_dftSize]; decide)

/-- C6. End of stream in the read loop: on a finite source that yields `m` non-empty
chunks (each fitting the buffer) and then returns zero samples, the loop terminates after
exactly `m` reads that deliver a chunk; the only other call of `audio.read` is the one
that returns zero samples and ends the loop, so `audio.read` is called `m + 1` times in
all. A budget of `m` iterations or fewer does not reach the end of the loop. -/
theorem batch_read_count [Zero α] [Zero κ] [Zero π] (S : SettingsT)
    (compute : List κ → List α → List κ) (render : List π → List κ → List π)
    (audio : List (List α)) (imagePath : String)
    (hN : S.dftSize < UINT_MOD) (hw : 0 < S.width)
    (hch : ∀ c ∈ audio, 1 ≤ c.length ∧ c.length ≤ S.dftSize) :
    (∃ tr : List (Event α κ π),
      (∀ fuel, audio.length < fuel →
        spectrogram_audiofile S compute render fuel audio imagePath = Outcome.done tr) ∧
      dataReadCount tr = audio.length ∧
      readCount tr = audio.length + 1 ∧
      zeroReadCount tr = 1 ∧
      (∃ img, afterFirstZeroRead tr = [Event.write img])) ∧
    (∀ fuel, fuel ≤ audio.length →
      spectrogram_audiofile S compute render fuel audio imagePath
        = (Outcome.outOfFuel : Outcome (List (Event α κ π)))) := by
  obtain ⟨body, img, hrun, hno, hreads, _, _, _⟩ :=
    run_shape S compute render audio imagePath hN hw hch
  refine ⟨⟨body ++ [Event.read 0, Event.write img], hrun, ?_, ?_, ?_, ⟨img, ?_⟩⟩, ?_⟩
  · unfold dataReadCount
    unfold readCount at hreads
    rw [List.countP_append, ← hreads]
    have hbody : body.countP (fun e => e.isRead && !e.isZeroRead) = body.countP Event.isRead :=
      List.countP_congr (fun e he => by simp [(hno e he).1])
    rw [hbody]
    simp [List.countP_cons, Event.isRead, Event.isZeroRead]
  · unfold readCount at hreads ⊢
    rw [List.countP_append, hreads]
    simp [List.countP_cons, Event.isRead]
  · unfold zeroReadCount
    rw [List.countP_append, List.countP_eq_zero.mpr (fun e he => by simp [(hno e he).1])]
    simp [List.countP_cons, Event.isZeroRead]
  · unfold afterFirstZeroRead
    rw [dropWhile_append_of_all _ body _ (fun e he => by simp [(hno e he).1])]
    simp [List.dropWhile_cons, Event.isZeroRead]
  · intro fuel hfuel
    unfold spectrogram_audiofile
    rw [batchLoop_outOfFuel compute render audio fuel _ rfl hfuel
      (by simp [initialState]; exact hN)
      (fun c hc => by
        have := hch c hc
        simp only [initialState, List.length_replicate]
        omega)]

/-- Witness of C6: the default settings and a source of three chunks of hop size (1024
samples each) that then returns zero samples. -/
theorem batch_read_count_witness :
    (∃ tr : List (Event Nat Nat Nat),
      (∀ fuel, (scenarioChunks 3 1024).length < fuel →
        spectrogram_audiofile Settings frameAsSpectrum spectrumAsRow fuel
          (scenarioChunks 3 1024) "out.png" = Outcome.done tr) ∧
      dataReadCount tr = 3 ∧ readCount tr = 3 + 1 ∧ zeroReadCount tr = 1) ∧
    (∀ fuel, fuel ≤ (scenarioChunks 3 1024).length →
      spectrogram_audiofile Settings frameAsSpectrum spectrumAsRow fuel
        (scenarioChunks 3 1024) "out.png"
        = (Outcome.outOfFuel : Outcome (List (Event Nat Nat Nat)))) := by
  obtain ⟨⟨tr, h1, h2, h3, h4, _⟩, h5⟩ :=
    batch_read_count Settings frameAsSpectrum spectrumAsRow (scenarioChunks 3 1024) "out.png"
      (by decide) (by decide)
      (fun c hc => by rw [scenarioChunks_chunk 3 1024 c hc, settings_dftSize]; decide)
  rw [scenarioChunks_length] at h2 h3
  exact ⟨⟨tr, h1, h2, h3, h4⟩, h5⟩

/-! ## Sink lemmas -/

theorem appendAll_imagePixels (rows : List (List π)) :
    ∀ sink : MagickImageSink π,
      (sink.appendAll rows).imagePixels = sink.imagePixels ++ rows.flatten ∧
      (sink.appendAll rows).width = sink.width := by
  induction rows with
  | nil => intro sink; simp [MagickImageSink.appendAll]
  | cons r rest ih =>
    intro sink
    obtain ⟨h1, h2⟩ := ih (sink.append r)
    show ((sink.append r).appendAll rest).imagePixels = sink.imagePixels ++ (r :: rest).flatten ∧
      ((sink.append r).appendAll rest).width = sink.width
    rw [h1, h2]
    simp [MagickImageSink.append]

theorem appendAll_new (path : String) (width : Nat) (rows : List (List π)) :
    ((MagickImageSink.new path width).appendAll rows).imagePixels = rows.flatten ∧
    ((MagickImageSink.new path width).appendAll rows).width = width := by
  obtain ⟨h1, h2⟩ := appendAll_imagePixels rows (MagickImageSink.new path width)
  rw [h1, h2]
  simp [MagickImageSink.new]

/-! ## Claims on the image sink -/

/-- Counterexample to C5 as stated: three rows of width 2 appended to a sink of width 2 give
an image of height 3, not `3 × 2`. -/
theorem image_height_counterexample :
    ∃ img : WrittenImage Nat,
      ((MagickImageSink.new "out.png" 2).appendAll [[1, 2], [3, 4], [5, 6]]).write = some img ∧
      img.rows = 3 ∧ img.rows ≠ 3 * 2 :=
  ⟨_, rfl, rfl, by decide⟩

/-- C5, amended. When `m` rows, each of length `width > 0`, have been appended, the image
`write` builds has height `m` (the row count `imagePixels.size()/width` passed to the
constructor), width `width`, and holds `m × width` pixels. -/
theorem image_height_is_row_count (path : String) (width : Nat) (hw : 0 < width)
    (rows : List (List π)) (hrows : ∀ r ∈ rows, r.length = width) :
    ∃ img, ((MagickImageSink.new path width).appendAll rows).write = some img ∧
      img.rows = rows.length ∧ img.columns = width ∧
      img.pixels.length = rows.length * width := by
  obtain ⟨hpix, hwidth⟩ := appendAll_new path width rows
  obtain ⟨img, himg, hcol, hrow, hp⟩ :=
    write_of_width_pos ((MagickImageSink.new path width).appendAll rows)
      (by rw [hwidth]; exact hw)
  have hlen := length_flatten_const rows width hrows
  have hdiv : rows.length * width / width = rows.length := Nat.mul_div_cancel _ hw
  rw [hpix, hwidth, hlen, hdiv] at hrow hp
  rw [hwidth] at hcol
  refine ⟨img, himg, hrow, hcol, ?_⟩
  rw [hp, List.length_take, hlen, Nat.mul_comm]
  simp

/-- Witness of C5, amended: three rows of width 2. -/
theorem image_height_is_row_count_witness :
    ∃ img : WrittenImage Nat,
      ((MagickImageSink.new "out.png" 2).appendAll [[1, 2], [3, 4], [5, 6]]).write = some img ∧
      img.rows = [[1, 2], [3, 4], [5, 6]].length ∧ img.columns = 2 ∧
      img.pixels.length = [[1, 2], [3, 4], [5, 6]].length * 2 :=
  image_height_is_row_count "out.png" 2 (by decide) [[1, 2], [3, 4], [5, 6]] (by decide)

/-- C10. Row accumulation in the sink: after `append` has been called on the rows
`r1 .. rm` in order, the pixel buffer is `r1 ++ ... ++ rm`; when every row has length
`width > 0`, the buffer has `m * width` pixels, the row count `imagePixels.size()/width`
is `m`, the division leaves no remainder, and the image built by `write` holds every
pixel of the buffer. -/
theorem sink_accumulates_rows (path : String) (width : Nat) (rows : List (List π)) :
    ((MagickImageSink.new path width).appendAll rows).imagePixels = rows.flatten ∧
    (0 < width → (∀ r ∈ rows, r.length = width) →
      ((MagickImageSink.new path width).appendAll rows).imagePixels.length
        = rows.length * width ∧
      ((MagickImageSink.new path width).appendAll rows).imagePixels.length / width
        = rows.length ∧
      ((MagickImageSink.new path width).appendAll rows).imagePixels.length % width = 0 ∧
      ∃ img, ((MagickImageSink.new path width).appendAll rows).write = some img ∧
        img.rows = rows.length ∧ img.pixels = rows.flatten) := by
  obtain ⟨hpix, hwidth⟩ := appendAll_new path width rows
  refine ⟨hpix, fun hw hrows => ?_⟩
  have hlen := length_flatten_const rows width hrows
  have hdiv : rows.length * width / width = rows.length := Nat.mul_div_cancel _ hw
  obtain ⟨img, himg, _, hrow, hp⟩ :=
    write_of_width_pos ((MagickImageSink.new path width).appendAll rows)
      (by rw [hwidth]; exact hw)
  rw [hpix, hwidth, hlen, hdiv] at hrow hp
  rw [hpix, hlen, hdiv]
  refine ⟨rfl, rfl, Nat.mul_mod_left _ _, img, himg, hrow, ?_⟩
  rw [hp]
  apply List.take_of_length_le
  rw [hlen, Nat.mul_comm]

/-- Witness of C10: three rows of width 2. -/
theorem sink_accumulates_rows_witness :
    ((MagickImageSink.new "out.png" 2).appendAll [[1, 2], [3, 4], [5, 6]]).imagePixels.length
        = 3 * 2 ∧
    ((MagickImageSink.new "out.png" 2).appendAll [[1, 2], [3, 4], [5, 6]]).imagePixels.length / 2
        = 3 ∧
    ((MagickImageSink.new "out.png" 2).appendAll [[1, 2], [3, 4], [5, 6]]).imagePixels.length % 2
        = 0 ∧
    ∃ img : WrittenImage Nat,
      ((MagickImageSink.new "out.png" 2).appendAll [[1, 2], [3, 4], [5, 6]]).write = some img ∧
      img.rows = 3 ∧ img.pixels = [[1, 2], [3, 4], [5, 6]].flatten :=
  (sink_accumulates_rows "out.png" 2 [[1, 2], [3, 4], [5, 6]]).2 (by decide) (by decide)

/-! ## Claims on `main` and on the settings -/

/-- C4. Process entry selection: `main` calls `spectrogram_audiofile(argv[1], argv[2])`
exactly when `argc == 3`, calls `spectrogram_realtime()` for every other argument vector,
in particular when no path argument is given, and returns 0 once the call has completed. -/
theorem main_selects_mode (argv : List String) :
    ((main argv).1 = Mode.spectrogram_audiofile (argv.getD 1 "") (argv.getD 2 "")
      ↔ argv.length = 3) ∧
    ((main argv).1 = Mode.spectrogram_realtime ↔ argv.length ≠ 3) ∧
    (main argv).2 = 0 ∧
    (∀ prog src dst : String,
      main [prog, src, dst] = (Mode.spectrogram_audiofile src dst, 0)) ∧
    (∀ prog : String, main [prog] = (Mode.spectrogram_realtime, 0)) := by
  refine ⟨?_, ?_, ?_, fun _ _ _ => rfl, fun _ => rfl⟩
  · unfold main
    by_cases h : argv.length = 3
    · simp [h]
    · have : ¬ ((argv.length : Int) = 3) := by exact_mod_cast h
      simp [h, this]
  · unfold main
    by_cases h : argv.length = 3
    · simp [h]
    · have : ¬ ((argv.length : Int) = 3) := by exact_mod_cast h
      simp [h, this]
  · unfold main
    by_cases h : (argv.length : Int) = 3 <;> simp [h]

/-- C9. The defaults of `Settings` are a valid configuration: the transform size 2048 is a
power of two, the magnitude floor 0.0 is strictly below the ceiling 60.0, and the hop size
1024 is positive, at most the transform size, and divides it. -/
theorem settings_defaults_valid :
    Settings.dftSize = 2048 ∧ (∃ e : Nat, Settings.dftSize = 2 ^ e) ∧
    Settings.magnitudeMin = 0 ∧ Settings.magnitudeMax = 60 ∧
    Settings.magnitudeMin < Settings.magnitudeMax ∧
    Settings.audioReadSize = 1024 ∧ 0 < Settings.audioReadSize ∧
    Settings.audioReadSize ≤ Settings.dftSize ∧
    Settings.audioReadSize ∣ Settings.dftSize := by
  refine ⟨rfl, ⟨11, rfl⟩, rfl, rfl, ?_, rfl, by decide, by decide, ⟨2, rfl⟩⟩
  show (0 : ℚ) < 60
  norm_num

end AudioPrism
